import Mathlib

/-!
Verification of the contract-analysis core of `international_law_model`.

The development shallowly embeds the pipeline implemented in
`src/contract_models.py` (class `ContractBERTAnalyzer`) and
`src/analysis_service.py` (class `ContractAnalysisService`):

* text is a `List Char` (Python `str`);
* Python `float` ratios and confidences are modelled exactly as `ℚ`
  (the decisive comparisons in the source are against 0.7, 0.6, 0.3,
  0.1 and 0.5, and every counterexample below survives the float
  reading: at those inputs the float and rational comparisons agree);
* the injected scoring capability (tokenizer + BERT model + softmax)
  is an opaque function `List Char → Except String (List ℚ)`; a raised
  Python exception is the `Except.error` case;
* a Python `dict` access that can raise `KeyError` is modelled as an
  `Option`-valued step, so that the aggregation loops are total exactly
  when the source never hits a missing key.
-/

namespace ILM
/-! ### Risk tiers: `_determine_risk_level` (contract_models.py 143-153) -/

def highRiskClauses : List String :=
  ["Liability", "Indemnification", "Termination", "Governing Law"]

def mediumRiskClauses : List String :=
  ["Payment", "Intellectual Property", "Confidentiality"]

/-- `ContractBERTAnalyzer._determine_risk_level`: tiers a clause type with
its confidence.  The source compares `confidence > 0.7` and
`confidence > 0.6`. -/
def determineRiskLevel (clause_type : String) (confidence : ℚ) : String :=
  if clause_type ∈ highRiskClauses then
    if 7/10 < confidence then "high" else "medium"
  else if clause_type ∈ mediumRiskClauses then
    if 3/5 < confidence then "medium" else "low"
  else "low"

/-! ### Overall risk: `_calculate_overall_risk` (contract_models.py 245-259)
and the tier rule inside `_generate_simple_risk_assessment`
(analysis_service.py 107-130). -/

/-- `ContractBERTAnalyzer._calculate_overall_risk` on tallied counts.
`high_ratio = high/total` and `medium_ratio = medium/total` are Python
floats; here exact rationals. -/
def calcOverallRisk (high medium low : ℕ) : String :=
  let total := high + medium + low
  if total = 0 then "low"
  else
    if 3/10 < (high : ℚ) / (total : ℚ) then "high"
    else if 1/10 < (high : ℚ) / (total : ℚ) ∨ 1/2 < (medium : ℚ) / (total : ℚ) then "medium"
    else "low"

/-- The overall tier computed inside
`ContractAnalysisService._generate_simple_risk_assessment`
(analysis_service.py 124-130): note the second test is
`risk_counts["high"] > 0`, not a ratio test. -/
def simpleOverallRisk (high medium low : ℕ) : String :=
  let total := high + medium + low
  if (total : ℚ) * (3/10) < (high : ℚ) then "high"
  else if 0 < high ∨ (total : ℚ) * (1/2) < (medium : ℚ) then "medium"
  else "low"

/-- Integer form of `calcOverallRisk`, used to discharge the rational
comparisons once and for all. -/
def calcOverallRiskN (high medium low : ℕ) : String :=
  if high + medium + low = 0 then "low"
  else
    if 3 * (high + medium + low) < 10 * high then "high"
    else if (high + medium + low) < 10 * high ∨ (high + medium + low) < 2 * medium then "medium"
    else "low"

/-- Integer form of `simpleOverallRisk`. -/
def simpleOverallRiskN (high medium low : ℕ) : String :=
  if 3 * (high + medium + low) < 10 * high then "high"
  else if 0 < high ∨ (high + medium + low) < 2 * medium then "medium"
  else "low"

/-! ### Classifier data model

`_classify_with_model` (contract_models.py 99-141) returns a dict with
keys `clause_type`, `confidence`, `risk_level` and, in the success
branch, `all_scores`; in the exception branch, `error` instead. -/

/-- One per-jurisdiction classification result. `all_scores` is `none`
exactly when the source dict omits the key (the exception branch);
`error` is `some` exactly when the source dict carries it. -/
structure Outcome where
  clause_type : String
  confidence : ℚ
  risk_level : String
  all_scores : Option (List (String × ℚ))
  error : Option String
deriving DecidableEq

/-- One entry of the `clause_analyses` list built by `analyze_contract`
(contract_models.py 202-207).  The Python value is a dict with keys
`clause_id`, `text` and one key per requested jurisdiction; the two
possible jurisdiction keys become two `Option` fields. -/
structure ClauseAnalysis where
  us : Option Outcome
  indian : Option Outcome
  clause_id : ℕ
  text : List Char
deriving DecidableEq

/-- The per-jurisdiction entry `analysis[juris]` of an analysis dict:
`some` exactly when `juris` is a jurisdiction key the dict carries a
classification dict for.  The dict also always carries the metadata
keys "clause_id" and "text" (whose values are an int and a str, not
classification dicts); membership over the full key set is `hasKey`
below, and the summary path that can trip over the metadata values is
modelled by `tallyFullAux`/`generateSummaryFull`. -/
def getJuris (a : ClauseAnalysis) (j : String) : Option Outcome :=
  if j = "us" then a.us else if j = "indian" then a.indian else none

/-- The mutable tally `risk_counts = {"high": 0, "medium": 0, "low": 0}`. -/
structure RiskCounts where
  high : ℕ
  medium : ℕ
  low : ℕ
deriving DecidableEq

/-- `risk_counts[risk_level] += 1`: `none` is the `KeyError` raised when
`risk_level` is not one of the three initialized keys. -/
def tallyStep (c : RiskCounts) (r : String) : Option RiskCounts :=
  if r = "high" then some { c with high := c.high + 1 }
  else if r = "medium" then some { c with medium := c.medium + 1 }
  else if r = "low" then some { c with low := c.low + 1 }
  else none

def tallyAux (j : String) : List ClauseAnalysis → RiskCounts → Option RiskCounts
  | [], c => some c
  | a :: rest, c =>
    match getJuris a j with
    | none => tallyAux j rest c
    | some o =>
      match tallyStep c o.risk_level with
      | none => none
      | some c' => tallyAux j rest c'

/-- The tallying loop shared by `_generate_summary`
(contract_models.py 229-234) and `_generate_simple_risk_assessment`
(analysis_service.py 112-115). -/
def tallyRisks (analyses : List ClauseAnalysis) (j : String) : Option RiskCounts :=
  tallyAux j analyses ⟨0, 0, 0⟩

/-- A clause analysis carrying one US result with the given risk tier
(used as concrete input below). -/
def mkUsAnalysis (r : String) : ClauseAnalysis :=
  { us := some { clause_type := "Liability", confidence := 0, risk_level := r,
                 all_scores := none, error := none },
    indian := none, clause_id := 1, text := [] }

/-- Ten clause analyses: one high-risk, nine low-risk. -/
def tenAnalyses : List ClauseAnalysis :=
  mkUsAnalysis "high" :: List.replicate 9 (mkUsAnalysis "low")

/-! ### C7: monotonicity of the aggregated overall risk -/

/-- The order low < medium < high on tier strings. -/
def riskOrd (r : String) : ℕ :=
  if r = "high" then 2 else if r = "medium" then 1 else 0

/-! ### Segmenter: `extract_clauses` (contract_models.py 155-191) -/

/-- The ASCII whitespace characters recognized by Python `str.strip`
and by the regex class `\s`. -/
def isSpaceB (c : Char) : Bool :=
  c = ' ' || c = '\t' || c = '\n' || c = '\r' || c = '\x0b' || c = '\x0c'

/-- Python `s.strip()`. -/
def strip (l : List Char) : List Char :=
  ((l.dropWhile isSpaceB).reverse.dropWhile isSpaceB).reverse

/-- Python `s.replace('\n', ' ')`. -/
def replaceNL (l : List Char) : List Char :=
  l.map fun c => if c = '\n' then ' ' else c

/-- Prepends a character to the first piece of a split result. -/
def consHead (c : Char) : List (List Char) → List (List Char)
  | [] => [[c]]
  | p :: ps => (c :: p) :: ps

/-- Python `contract_text.split('\n\n')`: split at non-overlapping
occurrences of two consecutive newlines, keeping empty pieces. -/
def splitNN : List Char → List (List Char)
  | [] => [[]]
  | [c] => [[c]]
  | c :: d :: rest =>
    if c = '\n' ∧ d = '\n' then [] :: splitNN rest
    else consHead c (splitNN (d :: rest))

/-- The lookahead `(?=\s+[A-Z])` of the sentence-splitting regex: one
or more whitespace characters followed by an ASCII uppercase letter. -/
def sentBoundary (l : List Char) : Bool :=
  let sp := l.takeWhile isSpaceB
  !sp.isEmpty &&
    match l.drop sp.length with
    | u :: _ => u.isUpper
    | [] => false

/-- Python `re.split(r'\.(?=\s+[A-Z])', text)`: the period is consumed,
the whitespace and capital stay with the next piece. -/
def sentSplit : List Char → List (List Char)
  | [] => [[]]
  | c :: rest =>
    if c = '.' ∧ sentBoundary rest then [] :: sentSplit rest
    else consHead c (sentSplit rest)

/-- Python `s.lower().startswith(tuple prefixes)` (the prefixes are
ASCII, so `Char.toLower` matches `str.lower` on them). -/
def startsBoiler (pres : List (List Char)) (s : List Char) : Bool :=
  pres.any fun pre => pre.isPrefixOf (s.map Char.toLower)

def boilerFull : List (List Char) :=
  ["whereas".toList, "this agreement".toList, "the parties".toList,
   "page ".toList, "exhibit".toList]

def boilerShort : List (List Char) :=
  ["whereas".toList, "this agreement".toList, "the parties".toList]

/-- Python `re.match(r'^\d+[\.\)]\s*$', s)`: digits, then '.' or ')',
then only whitespace to the end. -/
def isBareNumHeader (s : List Char) : Bool :=
  let ds := s.takeWhile Char.isDigit
  !ds.isEmpty &&
    match s.drop ds.length with
    | c :: rest => (c = '.' || c = ')') && rest.all isSpaceB
    | [] => false

/-- `clauses.append(sentence + '.' if not sentence.endswith('.') else sentence)`. -/
def withDot (s : List Char) : List Char :=
  if s.getLast? = some '.' then s else s ++ ['.']

/-- The clauses contributed by one paragraph in the first pass
(contract_models.py 163-179). -/
def paraClauses (p : List Char) : List (List Char) :=
  let p' := replaceNL (strip p)
  if 50 < p'.length ∧ startsBoiler boilerFull p' = false ∧ isBareNumHeader p' = false then
    if 500 < p'.length then
      (sentSplit p').filterMap fun s =>
        let s' := strip s
        if 50 < s'.length then some (withDot s') else none
    else [p']
  else []

/-- The sentence-splitting fallback pass (contract_models.py 182-189). -/
def fallbackClauses (text : List Char) : List (List Char) :=
  (sentSplit text).filterMap fun s =>
    let s' := replaceNL (strip s)
    if 50 < s'.length ∧ startsBoiler boilerShort s' = false then some (withDot s') else none

/-- `ContractBERTAnalyzer.extract_clauses`. -/
def extractClauses (text : List Char) : List (List Char) :=
  let clauses := ((splitNN text).map paraClauses).flatten
  if clauses.length < 5 then fallbackClauses text else clauses

/-! ### C6: paragraphs longer than 50 characters -/

/-- A paragraph that survives the first-pass filter and is short enough
(≤ 500) to be appended whole: trimmed newline-normalized length in
(50, 500], not boilerplate-prefixed, not a bare numbered header. -/
def goodPara (p : List Char) : Bool :=
  let p' := replaceNL (strip p)
  decide (50 < p'.length ∧ p'.length ≤ 500 ∧
    startsBoiler boilerFull p' = false ∧ isBareNumHeader p' = false)

/-- The text "whereas " followed by sixty 'x': one paragraph, trimmed
length 68 > 50. -/
def whereasText : List Char := "whereas ".toList ++ List.replicate 60 'x'

/-- Five plain 51-character paragraphs separated by blank lines. -/
def fiveParas : List Char :=
  List.replicate 51 'a' ++ ['\n', '\n'] ++ List.replicate 51 'b' ++ ['\n', '\n'] ++
  List.replicate 51 'c' ++ ['\n', '\n'] ++ List.replicate 51 'd' ++ ['\n', '\n'] ++
  List.replicate 51 'e'

/-! ### The classifier: `_classify_with_model` and `analyze_contract` -/

def usClauseTypes : List String :=
  ["Termination", "Payment", "Liability", "Confidentiality",
   "Intellectual Property", "Governing Law", "Dispute Resolution",
   "Force Majeure", "Indemnification", "Warranties", "Deliverables", "Term"]

def indianClauseTypes : List String :=
  ["Termination", "Payment", "Liability", "Confidentiality",
   "Intellectual Property", "Governing Law", "Dispute Resolution",
   "Force Majeure", "Indemnification", "Warranties", "Deliverables",
   "Term", "Compliance", "Registration", "Stamp Duty"]

/-- The injected scoring capability: tokenizer, model forward pass and
softmax, abstracted as one opaque function from clause text to the
probability vector `predictions[0]`; `Except.error` is a raised Python
exception. -/
abbrev Cap := List Char → Except String (List ℚ)

/-- The maximum of a probability vector (0 on the empty vector, which
the guard below rules out). -/
def listMax : List ℚ → ℚ
  | [] => 0
  | [x] => x
  | x :: y :: t => max x (listMax (y :: t))

/-- `predictions.argmax().item()`: index of the first occurrence of the
maximal value (`torch.argmax` returns the first maximal index). -/
def argmaxIdx : List ℚ → ℕ
  | [] => 0
  | [_] => 0
  | x :: y :: t => if listMax (y :: t) ≤ x then 0 else argmaxIdx (y :: t) + 1

/-- Python `round(x, 3)` modelled as rounding to the nearest multiple
of 1/1000.  (CPython rounds half to even; only nearest-ness — an error
of at most 1/2000 — and monotonicity matter below, and both hold for
either tie-break.) -/
def round3 (x : ℚ) : ℚ := ((round (1000 * x) : ℤ) : ℚ) / 1000

/-- The result of `_classify_with_model(text, model, tokenizer,
clause_types)`.  The `try` block wraps everything, so an out-of-range
index (argmax beyond `clause_types`, or a score vector shorter than
`clause_types`, or an empty score vector) also lands in the `except`
branch; the source note: `confidence` is rounded only in the returned
dict, while `risk_level` is computed from the unrounded value. -/
def classifyWithModel (score : Cap) (cts : List String) (text : List Char) : Outcome :=
  match score text with
  | .error e =>
    { clause_type := "Unknown", confidence := 0, risk_level := "medium",
      all_scores := none, error := some e }
  | .ok preds =>
    if preds = [] ∨ preds.length < cts.length ∨ cts.length ≤ argmaxIdx preds then
      { clause_type := "Unknown", confidence := 0, risk_level := "medium",
        all_scores := none, error := some ("list index out of range") }
    else
      let id := argmaxIdx preds
      let conf := preds.getD id 0
      let ct := cts.getD id ("Unknown")
      { clause_type := ct, confidence := round3 conf,
        risk_level := determineRiskLevel ct conf,
        all_scores := some (cts.zip (preds.map round3)),
        error := none }

/-- `classify_clause` (contract_models.py 83-97) -- one dict entry per
requested jurisdiction -- merged with the loop body of
`analyze_contract` (202-207), which adds `clause_id` and the truncated
preview text. -/
def truncatePreview (c : List Char) : List Char :=
  if 200 < c.length then c.take 200 ++ "...".toList else c

def mkClauseAnalysis (usC indC : Cap) (jurisdiction : String)
    (idx : ℕ) (clause : List Char) : ClauseAnalysis :=
  { us := if jurisdiction = "us" ∨ jurisdiction = "both"
      then some (classifyWithModel usC usClauseTypes clause) else none,
    indian := if jurisdiction = "indian" ∨ jurisdiction = "both"
      then some (classifyWithModel indC indianClauseTypes clause) else none,
    clause_id := idx + 1,
    text := truncatePreview clause }

/-- `clause_type_counts[clause_type] = clause_type_counts.get(clause_type, 0) + 1`:
an insertion-ordered histogram update that never raises. -/
def bump : List (String × ℕ) → String → List (String × ℕ)
  | [], k => [(k, 1)]
  | (k', v) :: rest, k =>
    if k' = k then (k', v + 1) :: rest else (k', v) :: bump rest k

def histogram (analyses : List ClauseAnalysis) (j : String) : List (String × ℕ) :=
  analyses.foldl
    (fun acc a => match getJuris a j with
      | some o => bump acc o.clause_type
      | none => acc) []

/-- Python `juris in analysis` restricted to the jurisdiction keys:
the part of key membership on which the aggregation loops go on to
read a classification dict.  Membership over the full key set
(including the always-present metadata keys) is `hasKey` below, and
`tallyFullAux` models the loop on it. -/
def hasJuris (a : ClauseAnalysis) (j : String) : Bool :=
  (getJuris a j).isSome

/-- Python `juris in analysis` on the full key set of one entry of
`clause_analyses`: besides its jurisdiction keys, the dict always
carries the metadata keys "clause_id" and "text", added by
`analyze_contract` (contract_models.py 205-206). -/
def hasKey (a : ClauseAnalysis) (j : String) : Bool :=
  if j = "us" then a.us.isSome
  else if j = "indian" then a.indian.isSome
  else j == "clause_id" || j == "text"

/-- The tally loop of `_generate_summary` on the full dict model:
under the `juris in analysis` guard, `analysis[juris]["risk_level"]`
raises a TypeError when `juris` is a metadata key (the value is an int
or a str, not a dict) -- the `hasKey` true / `getJuris` none case --
and `risk_counts[risk_level] += 1` raises a KeyError on an unexpected
tier.  `none` covers both uncaught exceptions. -/
def tallyFullAux (j : String) : List ClauseAnalysis → RiskCounts → Option RiskCounts
  | [], c => some c
  | a :: rest, c =>
    if hasKey a j then
      match getJuris a j with
      | none => none
      | some o =>
        match tallyStep c o.risk_level with
        | none => none
        | some c' => tallyFullAux j rest c'
    else tallyFullAux j rest c

def tallyRisksFull (analyses : List ClauseAnalysis) (j : String) : Option RiskCounts :=
  tallyFullAux j analyses ⟨0, 0, 0⟩


/-- One value of the `summary` dict built by `_generate_summary`
(contract_models.py 218-243). -/
structure JurisSummary where
  risk_distribution : RiskCounts
  clause_types : List (String × ℕ)
  overall_risk : String
deriving DecidableEq

def summaryEntry (analyses : List ClauseAnalysis) (juris : String) :
    Option JurisSummary :=
  match tallyRisks analyses juris with
  | none => none
  | some counts =>
    some { risk_distribution := counts,
           clause_types := histogram analyses juris,
           overall_risk := calcOverallRisk counts.high counts.medium counts.low }

def summaryAux (analyses : List ClauseAnalysis) :
    List String → Option (List (String × JurisSummary))
  | [] => some []
  | juris :: rest =>
    if analyses.any (fun a => hasJuris a juris) then
      match summaryEntry analyses juris, summaryAux analyses rest with
      | some e, some tail => some ((juris, e) :: tail)
      | _, _ => none
    else summaryAux analyses rest

/-- `_generate_summary`: `none` is the `KeyError` a malformed risk tier
would raise inside the tally loop. -/
def generateSummary (analyses : List ClauseAnalysis) (jurisdiction : String) :
    Option (List (String × JurisSummary)) :=
  summaryAux analyses (if jurisdiction = "both" then ["us", "indian"] else [jurisdiction])

/-- `summaryEntry` on the full dict model.  (`histogram` stays total:
it is only reached when the tally succeeded, which forces every
guarded access in the same loop body to have hit a classification
dict.) -/
def summaryEntryFull (analyses : List ClauseAnalysis) (juris : String) :
    Option JurisSummary :=
  match tallyRisksFull analyses juris with
  | none => none
  | some counts =>
    some { risk_distribution := counts,
           clause_types := histogram analyses juris,
           overall_risk := calcOverallRisk counts.high counts.medium counts.low }

def summaryAuxFull (analyses : List ClauseAnalysis) :
    List String → Option (List (String × JurisSummary))
  | [] => some []
  | juris :: rest =>
    if analyses.any (fun a => hasKey a juris) then
      match summaryEntryFull analyses juris, summaryAuxFull analyses rest with
      | some e, some tail => some ((juris, e) :: tail)
      | _, _ => none
    else summaryAuxFull analyses rest

/-- `_generate_summary` on the full dict model (metadata keys
included): `none` is an uncaught exception. -/
def generateSummaryFull (analyses : List ClauseAnalysis) (jurisdiction : String) :
    Option (List (String × JurisSummary)) :=
  summaryAuxFull analyses (if jurisdiction = "both" then ["us", "indian"] else [jurisdiction])

/-- The dict returned by `analyze_contract` (contract_models.py 193-216). -/
structure AnalysisResult where
  total_clauses : ℕ
  clause_analyses : List ClauseAnalysis
  summary : Option (List (String × JurisSummary))
deriving DecidableEq

/-- `ContractBERTAnalyzer.analyze_contract` (model loading is part of
the injected capabilities). -/
def analyzeContract (usC indC : Cap) (text : List Char) (jurisdiction : String) :
    AnalysisResult :=
  let clauses := extractClauses text
  let analyses := clauses.enum.map fun ic => mkClauseAnalysis usC indC jurisdiction ic.1 ic.2
  { total_clauses := clauses.length,
    clause_analyses := analyses,
    summary := generateSummary analyses jurisdiction }

/-- `analyze_contract` with its summary computed on the full dict
model: `none` is an uncaught exception (e.g. the TypeError from
subscripting a metadata value) escaping the call. -/
def analyzeContractChecked (usC indC : Cap) (text : List Char) (jurisdiction : String) :
    Option AnalysisResult :=
  let clauses := extractClauses text
  let analyses := clauses.enum.map fun ic => mkClauseAnalysis usC indC jurisdiction ic.1 ic.2
  match generateSummaryFull analyses jurisdiction with
  | none => none
  | some s =>
    some { total_clauses := clauses.length,
           clause_analyses := analyses,
           summary := some s }

/-- A capability that always raises. -/
def errCap : Cap := fun _ => Except.error ("no model")

/-! ### C10: risk levels are always well-formed, so the tally dicts
never miss a key -/

def riskTiers : List String := ["high", "medium", "low"]

/-! ### C8: ComparisonEngine symmetry -/

/-- The per-jurisdiction summary as consumed by
`_generate_simple_comparison` (analysis_service.py 204-239): its
`overall_risk` string and the keys of its `clause_types` histogram. -/
structure SummaryIn where
  overall_risk : String
  clause_types : List (String × ℕ)
deriving DecidableEq

/-- The quantities `_generate_simple_comparison` computes before
rendering its report string: the two risks, whether they differ, and
the two set differences `set(A) - set(B)` and `set(B) - set(A)` of
observed clause-type labels. -/
structure ComparisonInfo where
  risk_first : String
  risk_second : String
  risks_differ : Bool
  uniqueToFirst : Finset String
  uniqueToSecond : Finset String

def labelSet (s : SummaryIn) : Finset String :=
  (s.clause_types.map Prod.fst).toFinset

def generateSimpleComparison (first second : SummaryIn) : ComparisonInfo :=
  { risk_first := first.overall_risk,
    risk_second := second.overall_risk,
    risks_differ := first.overall_risk != second.overall_risk,
    uniqueToFirst := labelSet first \ labelSet second,
    uniqueToSecond := labelSet second \ labelSet first }

/-- A capability returning the fixed distribution (0.25, 0.75). -/
def score9 : Cap := fun _ => Except.ok [1/4, 3/4]

/-! ### Theorems -/


theorem div_ratio_lt_iff (p q a t : ℕ) (hq : 0 < q) (ht : 0 < t) :
    ((p : ℚ) / (q : ℚ) < (a : ℚ) / (t : ℚ)) ↔ p * t < a * q := by
  rw [div_lt_div_iff (by exact_mod_cast hq) (by exact_mod_cast ht)]
  exact_mod_cast Iff.rfl

theorem mul_ratio_lt_iff (t p q a : ℕ) (hq : 0 < q) :
    ((t : ℚ) * ((p : ℚ) / (q : ℚ)) < (a : ℚ)) ↔ t * p < a * q := by
  rw [mul_div_assoc', div_lt_iff (by exact_mod_cast hq)]
  exact_mod_cast Iff.rfl

theorem calcOverallRisk_eq (h m l : ℕ) :
    calcOverallRisk h m l = calcOverallRiskN h m l := by
  unfold calcOverallRisk calcOverallRiskN
  by_cases h0 : h + m + l = 0
  · simp [h0]
  · have hpos : 0 < h + m + l := Nat.pos_of_ne_zero h0
    have e1 : ((3 : ℚ)/10 < (h : ℚ) / ((h + m + l : ℕ) : ℚ)) ↔ 3 * (h + m + l) < 10 * h := by
      have := div_ratio_lt_iff 3 10 h (h + m + l) (by norm_num) hpos
      simpa [mul_comm] using this
    have e2 : ((1 : ℚ)/10 < (h : ℚ) / ((h + m + l : ℕ) : ℚ)) ↔ (h + m + l) < 10 * h := by
      have := div_ratio_lt_iff 1 10 h (h + m + l) (by norm_num) hpos
      simpa [mul_comm] using this
    have e3 : ((1 : ℚ)/2 < (m : ℚ) / ((h + m + l : ℕ) : ℚ)) ↔ (h + m + l) < 2 * m := by
      have := div_ratio_lt_iff 1 2 m (h + m + l) (by norm_num) hpos
      simpa [mul_comm] using this
    simp only [h0, if_false, e1, e2, e3]

theorem simpleOverallRisk_eq (h m l : ℕ) :
    simpleOverallRisk h m l = simpleOverallRiskN h m l := by
  unfold simpleOverallRisk simpleOverallRiskN
  have e1 : (((h + m + l : ℕ) : ℚ) * ((3 : ℚ)/10) < (h : ℚ)) ↔ 3 * (h + m + l) < 10 * h := by
    have := mul_ratio_lt_iff (h + m + l) 3 10 h (by norm_num)
    constructor
    · intro hx; have := this.mp hx; omega
    · intro hx; exact this.mpr (by omega)
  have e2 : (((h + m + l : ℕ) : ℚ) * ((1 : ℚ)/2) < (m : ℚ)) ↔ (h + m + l) < 2 * m := by
    have := mul_ratio_lt_iff (h + m + l) 1 2 m (by norm_num)
    constructor
    · intro hx; have := this.mp hx; omega
    · intro hx; exact this.mpr (by omega)
  simp only [e1, e2]

/-- C1, counterexample: on the tallied counts (high 1, medium 0, low 9)
the service rule gives "medium" (it tests `high > 0`) while the
analyzer's `_calculate_overall_risk` gives "low" (it tests
`high_ratio > 0.1`, and 1/10 is not greater than 0.1). -/
theorem C1_counterexample :
    tallyRisks tenAnalyses "us" = some ⟨1, 0, 9⟩ ∧
    simpleOverallRisk 1 0 9 ≠ calcOverallRisk 1 0 9 := by
  constructor
  · decide
  · rw [simpleOverallRisk_eq, calcOverallRisk_eq]
    decide

/-- C1, amended: the two overall-risk rules agree on every tally except
when `0 < high`, `10*high ≤ total` and `2*medium ≤ total`; there the
service reports "medium" while the analyzer reports "low". -/
theorem C1_overall_risk_agreement (analyses : List ClauseAnalysis) (j : String)
    (c : RiskCounts) (htally : tallyRisks analyses j = some c) :
    (¬(0 < c.high ∧ 10 * c.high ≤ c.high + c.medium + c.low ∧
        2 * c.medium ≤ c.high + c.medium + c.low) →
      simpleOverallRisk c.high c.medium c.low = calcOverallRisk c.high c.medium c.low) ∧
    ((0 < c.high ∧ 10 * c.high ≤ c.high + c.medium + c.low ∧
        2 * c.medium ≤ c.high + c.medium + c.low) →
      simpleOverallRisk c.high c.medium c.low = "medium" ∧
      calcOverallRisk c.high c.medium c.low = "low") := by
  clear htally
  rw [simpleOverallRisk_eq, calcOverallRisk_eq]
  unfold simpleOverallRiskN calcOverallRiskN
  constructor
  · intro hD
    split_ifs <;> first | rfl | omega
  · intro hD
    obtain ⟨h1, h2, h3⟩ := hD
    split_ifs <;> first | exact ⟨rfl, rfl⟩ | omega

/-- C1, witness: at the tally (1, 0, 9) realized by `tenAnalyses` the
divergence branch of the amended theorem applies. -/
theorem C1_witness :
    simpleOverallRisk 1 0 9 = "medium" ∧ calcOverallRisk 1 0 9 = "low" :=
  (C1_overall_risk_agreement tenAnalyses "us" ⟨1, 0, 9⟩ (by decide)).2 (by decide)

/-! ### C2: the RiskScorer rule -/

theorem determineRiskLevel_high (ct : String) (hct : ct ∈ highRiskClauses) (conf : ℚ) :
    determineRiskLevel ct conf = if 7/10 < conf then "high" else "medium" := by
  unfold determineRiskLevel
  rw [if_pos hct]

theorem determineRiskLevel_medium (ct : String) (h1 : ct ∉ highRiskClauses)
    (h2 : ct ∈ mediumRiskClauses) (conf : ℚ) :
    determineRiskLevel ct conf = if 3/5 < conf then "medium" else "low" := by
  unfold determineRiskLevel
  rw [if_neg h1, if_pos h2]

theorem determineRiskLevel_low (ct : String) (h1 : ct ∉ highRiskClauses)
    (h2 : ct ∉ mediumRiskClauses) (conf : ℚ) :
    determineRiskLevel ct conf = "low" := by
  unfold determineRiskLevel
  rw [if_neg h1, if_neg h2]

/-- C2: for every clause-type label and confidence in [0,1],
`_determine_risk_level` returns "high" iff the label is one of
{Liability, Indemnification, Termination, Governing Law} with
confidence strictly above 0.7 (otherwise "medium" for those labels);
"medium" iff the label is one of {Payment, Intellectual Property,
Confidentiality} with confidence strictly above 0.6 (otherwise "low");
and "low" for all other labels.  Boundary confidences 0.7 and 0.6 fall
to the lower tier, and the function is deterministic by construction. -/
theorem C2_risk_scorer (ct : String) (conf : ℚ) (h0 : 0 ≤ conf) (h1 : conf ≤ 1) :
    ((ct = "Liability" ∨ ct = "Indemnification" ∨ ct = "Termination" ∨
        ct = "Governing Law") →
      (7/10 < conf → determineRiskLevel ct conf = "high") ∧
      (conf ≤ 7/10 → determineRiskLevel ct conf = "medium")) ∧
    ((ct = "Payment" ∨ ct = "Intellectual Property" ∨ ct = "Confidentiality") →
      (3/5 < conf → determineRiskLevel ct conf = "medium") ∧
      (conf ≤ 3/5 → determineRiskLevel ct conf = "low")) ∧
    (¬(ct = "Liability" ∨ ct = "Indemnification" ∨ ct = "Termination" ∨
        ct = "Governing Law" ∨ ct = "Payment" ∨ ct = "Intellectual Property" ∨
        ct = "Confidentiality") →
      determineRiskLevel ct conf = "low") := by
  refine ⟨?_, ?_, ?_⟩
  · intro hct
    have hmem : ct ∈ highRiskClauses := by
      simp only [highRiskClauses, List.mem_cons, List.not_mem_nil, or_false]
      tauto
    rw [determineRiskLevel_high ct hmem conf]
    constructor
    · intro hlt; rw [if_pos hlt]
    · intro hle; rw [if_neg (not_lt.mpr hle)]
  · intro hct
    have hmem : ct ∈ mediumRiskClauses := by
      simp only [mediumRiskClauses, List.mem_cons, List.not_mem_nil, or_false]
      tauto
    have hnot : ct ∉ highRiskClauses := by
      simp only [highRiskClauses, List.mem_cons, List.not_mem_nil, or_false]
      rcases hct with rfl | rfl | rfl <;> decide
    rw [determineRiskLevel_medium ct hnot hmem conf]
    constructor
    · intro hlt; rw [if_pos hlt]
    · intro hle; rw [if_neg (not_lt.mpr hle)]
  · intro hct
    push_neg at hct
    obtain ⟨n1, n2, n3, n4, n5, n6, n7⟩ := hct
    refine determineRiskLevel_low ct ?_ ?_ conf
    · simp only [highRiskClauses, List.mem_cons, List.not_mem_nil, or_false]
      tauto
    · simp only [mediumRiskClauses, List.mem_cons, List.not_mem_nil, or_false]
      tauto

/-- C2, witness: "Liability" at the boundary confidence 0.7 resolves to
"medium". -/
theorem C2_witness : determineRiskLevel "Liability" (7/10) = "medium" :=
  ((C2_risk_scorer "Liability" (7/10) (by norm_num) (by norm_num)).1
    (Or.inl rfl)).2 (by norm_num)

/-- C7, counterexample: at counts (high 0, medium 5, low 4) the overall
risk is "medium" (5/9 > 0.5) but adding one high-risk clause gives
counts (1, 5, 4) and tier "low" (1/10 is not > 0.1 and 5/10 is not >
0.5): the tier strictly decreases. -/
theorem C7_counterexample :
    riskOrd (calcOverallRisk (0 + 1) 5 4) < riskOrd (calcOverallRisk 0 5 4) := by
  rw [calcOverallRisk_eq, calcOverallRisk_eq]
  decide

/-- C7, amended: adding a high-risk clause never loses the tier "high",
and the tier can decrease only from "medium" to "low", exactly when the
new counts sit on both boundaries `2*medium = total + 1` and
`10*(high+1) ≤ total + 1`. -/
theorem C7_overall_risk_monotonicity (h m l : ℕ) :
    (calcOverallRisk h m l = "high" → calcOverallRisk (h + 1) m l = "high") ∧
    (riskOrd (calcOverallRisk (h + 1) m l) < riskOrd (calcOverallRisk h m l) →
      calcOverallRisk h m l = "medium" ∧ calcOverallRisk (h + 1) m l = "low" ∧
      2 * m = h + m + l + 1 ∧ 10 * (h + 1) ≤ h + m + l + 1) := by
  rw [calcOverallRisk_eq, calcOverallRisk_eq]
  unfold calcOverallRiskN
  constructor
  · intro hhigh
    split_ifs at hhigh ⊢ <;>
      first
        | rfl
        | (exact absurd hhigh (by decide))
        | (exfalso; omega)
  · split_ifs <;> intro hlt <;>
      first
        | (exact absurd hlt (by decide))
        | (refine ⟨rfl, rfl, ?_, ?_⟩ <;> omega)
        | (exfalso; omega)

/-- C7, witness: a "high" overall tier (4 of 10 high) is preserved when
one more high-risk clause is added. -/
theorem C7_witness : calcOverallRisk (4 + 1) 2 4 = "high" :=
  (C7_overall_risk_monotonicity 4 2 4).1 (by rw [calcOverallRisk_eq]; decide)

/-! ### C5: when does the Segmenter return an empty sequence? -/

theorem mem_consHead {c : Char} {L : List (List Char)} {p : List Char}
    (hp : p ∈ consHead c L) : ∀ x ∈ p, x = c ∨ ∃ q ∈ L, x ∈ q := by
  cases L with
  | nil =>
    simp only [consHead, List.mem_singleton] at hp
    subst hp
    intro x hx
    simp only [List.mem_singleton] at hx
    exact Or.inl hx
  | cons q qs =>
    simp only [consHead, List.mem_cons] at hp
    rcases hp with rfl | hp
    · intro x hx
      rcases List.mem_cons.mp hx with rfl | hx
      · exact Or.inl rfl
      · exact Or.inr ⟨q, List.mem_cons_self q qs, hx⟩
    · intro x hx
      exact Or.inr ⟨p, List.mem_cons_of_mem q hp, hx⟩

theorem splitNN_space :
    ∀ (n : ℕ) (text : List Char), text.length ≤ n →
      (∀ c ∈ text, isSpaceB c = true) →
      ∀ p ∈ splitNN text, ∀ c ∈ p, isSpaceB c = true := by
  intro n
  induction n with
  | zero =>
    intro text hlen _ p hp c hc
    have : text = [] := List.eq_nil_of_length_eq_zero (Nat.le_zero.mp hlen)
    subst this
    simp only [splitNN, List.mem_singleton] at hp
    subst hp
    exact absurd hc (List.not_mem_nil c)
  | succ n ih =>
    intro text hlen hsp p hp c hc
    match text with
    | [] =>
      simp only [splitNN, List.mem_singleton] at hp
      subst hp
      exact absurd hc (List.not_mem_nil c)
    | [a] =>
      simp only [splitNN, List.mem_singleton] at hp
      subst hp
      rcases List.mem_singleton.mp hc with rfl
      exact hsp c (List.mem_singleton.mpr rfl)
    | a :: b :: rest =>
      simp only [splitNN] at hp
      by_cases hab : a = '\n' ∧ b = '\n'
      · rw [if_pos hab] at hp
        rcases List.mem_cons.mp hp with rfl | hp
        · exact absurd hc (List.not_mem_nil c)
        · have hrest : rest.length ≤ n := by
            simp only [List.length_cons] at hlen; omega
          exact ih rest hrest
            (fun x hx => hsp x (by simp [hx])) p hp c hc
      · rw [if_neg hab] at hp
        rcases mem_consHead hp c hc with rfl | ⟨q, hq, hcq⟩
        · exact hsp c (List.mem_cons_self _ _)
        · have hrest : (b :: rest).length ≤ n := by
            simp only [List.length_cons] at hlen ⊢; omega
          exact ih (b :: rest) hrest
            (fun x hx => hsp x (List.mem_cons_of_mem a hx)) q hq c hcq

theorem dropWhile_space_nil {l : List Char}
    (h : ∀ c ∈ l, isSpaceB c = true) : l.dropWhile isSpaceB = [] := by
  induction l with
  | nil => rfl
  | cons c t ih =>
    rw [List.dropWhile_cons, if_pos (h c (List.mem_cons_self c t))]
    exact ih fun x hx => h x (List.mem_cons_of_mem c hx)

theorem strip_space {l : List Char}
    (h : ∀ c ∈ l, isSpaceB c = true) : strip l = [] := by
  unfold strip
  rw [dropWhile_space_nil h]
  rfl

theorem sentSplit_no_dot : ∀ l : List Char, '.' ∉ l → sentSplit l = [l] := by
  intro l
  induction l with
  | nil => intro _; rfl
  | cons c rest ih =>
    intro hn
    have hc : ¬(c = '.') := fun h => hn (h ▸ List.mem_cons_self c rest)
    rw [sentSplit, if_neg (fun hx => hc hx.1),
      ih fun h => hn (List.mem_cons_of_mem c h)]
    rfl

theorem paraClauses_space {p : List Char}
    (h : ∀ c ∈ p, isSpaceB c = true) : paraClauses p = [] := by
  unfold paraClauses
  rw [strip_space h]
  simp [replaceNL]

theorem flatten_map_paraClauses_nil {L : List (List Char)}
    (h : ∀ p ∈ L, paraClauses p = []) : (L.map paraClauses).flatten = [] := by
  induction L with
  | nil => rfl
  | cons p ps ih =>
    simp only [List.map_cons, List.flatten_cons, h p (List.mem_cons_self p ps),
      List.nil_append]
    exact ih fun q hq => h q (List.mem_cons_of_mem p hq)

/-- C5, counterexample: "hello" contains a non-whitespace character but
the Segmenter returns the empty sequence (no candidate exceeds the
50-character filter in either pass). -/
theorem C5_counterexample :
    (∃ c ∈ "hello".toList, isSpaceB c = false) ∧
      extractClauses "hello".toList = [] := by
  decide

/-- C5, amended: the Segmenter does return the empty sequence on every
empty or whitespace-only input; the converse direction of the claim is
refuted by `C5_counterexample`. -/
theorem C5_whitespace_gives_empty (text : List Char)
    (h : ∀ c ∈ text, isSpaceB c = true) : extractClauses text = [] := by
  unfold extractClauses
  have h1 : ((splitNN text).map paraClauses).flatten = [] :=
    flatten_map_paraClauses_nil fun p hp =>
      paraClauses_space fun c hc => splitNN_space text.length text le_rfl h p hp c hc
  rw [h1]
  rw [if_pos (by norm_num)]
  have hnd : '.' ∉ text := fun hd => absurd (h _ hd) (by decide)
  unfold fallbackClauses
  rw [sentSplit_no_dot text hnd]
  simp [strip_space h, replaceNL]

/-- C5, witness: a whitespace-only input yields no clauses. -/
theorem C5_witness : extractClauses "  \n\n \t ".toList = [] :=
  C5_whitespace_gives_empty _ (by decide)

theorem paraClauses_good {p : List Char} (h : goodPara p = true) :
    paraClauses p = [replaceNL (strip p)] := by
  obtain ⟨h1, h2, h3, h4⟩ := of_decide_eq_true h
  unfold paraClauses
  rw [if_pos ⟨h1, h3, h4⟩, if_neg (by omega)]

theorem countP_good_le_pass :
    ∀ ps : List (List Char),
      ps.countP goodPara ≤ ((ps.map paraClauses).flatten).length := by
  intro ps
  induction ps with
  | nil => simp
  | cons p ps ih =>
    simp only [List.map_cons, List.flatten_cons, List.length_append,
      List.countP_cons]
    cases h : goodPara p
    · simp only [h, Bool.false_eq_true, if_false]
      omega
    · rw [paraClauses_good h]
      simp only [h, if_true, List.length_singleton]
      omega

/-- C6, counterexample: a non-empty text whose single paragraph has
trimmed length 68 > 50, yet the Segmenter returns no clause — the
paragraph starts with the boilerplate prefix "whereas", so both the
paragraph pass and the sentence fallback reject it. -/
theorem C6_counterexample :
    whereasText ≠ [] ∧ (∃ p ∈ splitNN whereasText, 50 < (strip p).length) ∧
      extractClauses whereasText = [] := by
  decide

/-- C6, amended: if at least five blank-line-delimited paragraphs have
trimmed newline-normalized length in (50, 500], are not
boilerplate-prefixed and are not bare numbered headers, the Segmenter
returns at least one clause (the first pass yields ≥ 5 clauses, so the
fallback that could discard them is not taken). -/
theorem C6_five_good_paragraphs (text : List Char)
    (h5 : 5 ≤ (splitNN text).countP goodPara) : extractClauses text ≠ [] := by
  have hlen : 5 ≤ (((splitNN text).map paraClauses).flatten).length :=
    le_trans h5 (countP_good_le_pass _)
  unfold extractClauses
  rw [if_neg (by omega)]
  intro hEq
  rw [hEq] at hlen
  simp at hlen

/-- C6, witness: the five-paragraph text yields at least one clause. -/
theorem C6_witness : extractClauses fiveParas ≠ [] :=
  C6_five_good_paragraphs fiveParas (by decide)

/-! ### C3: classification failure never propagates -/

/-- C3: when the injected capability raises, `_classify_with_model`
returns the degenerate Unknown/0.0/medium result carrying the error
description; and `analyze_contract` always produces exactly one
classification entry per segmented clause, whatever the capability
does. -/
theorem C3_failure_isolation :
    (∀ (score : Cap) (cts : List String) (text : List Char) (e : String),
      score text = Except.error e →
      classifyWithModel score cts text =
        { clause_type := "Unknown", confidence := 0, risk_level := "medium",
          all_scores := none, error := some e }) ∧
    (∀ (usC indC : Cap) (text : List Char) (j : String),
      (analyzeContract usC indC text j).clause_analyses.length =
          (analyzeContract usC indC text j).total_clauses ∧
      (analyzeContract usC indC text j).total_clauses = (extractClauses text).length) := by
  constructor
  · intro score cts text e he
    unfold classifyWithModel
    rw [he]
  · intro usC indC text j
    refine ⟨?_, rfl⟩
    simp [analyzeContract]

/-- C3, witness: a concrete failing capability yields the degenerate
result with its error description. -/
theorem C3_witness :
    classifyWithModel errCap usClauseTypes [] =
      { clause_type := "Unknown", confidence := 0, risk_level := "medium",
        all_scores := none, error := some ("no model") } :=
  C3_failure_isolation.1 errCap usClauseTypes [] ("no model") rfl

/-! ### C4: unregistered jurisdiction selectors -/

/-- C4, counterexample: with the unregistered selector "french",
`analyze_contract` does not fail: it returns a complete result whose
single clause analysis has no per-jurisdiction entry and whose summary
is empty. -/
theorem C4_counterexample :
    analyzeContract errCap errCap (List.replicate 60 'x') "french" =
      { total_clauses := 1,
        clause_analyses := [{ us := none, indian := none, clause_id := 1,
                              text := List.replicate 60 'x' ++ ['.'] }],
        summary := some [] } := by
  decide

theorem hasKey_eq_hasJuris (a : ClauseAnalysis) (j : String)
    (hj : j = "us" ∨ j = "indian") : hasKey a j = hasJuris a j := by
  rcases hj with rfl | rfl <;> rfl

theorem tallyFullAux_eq (j : String) (hj : j = "us" ∨ j = "indian") :
    ∀ (analyses : List ClauseAnalysis) (c : RiskCounts),
      tallyFullAux j analyses c = tallyAux j analyses c := by
  intro analyses
  induction analyses with
  | nil => intro c; rfl
  | cons a rest ih =>
    intro c
    have hk : hasKey a j = (getJuris a j).isSome := by
      rcases hj with rfl | rfl <;> rfl
    cases hga : getJuris a j with
    | none =>
      have hkf : hasKey a j = false := by rw [hk, hga]; rfl
      simp only [tallyFullAux, tallyAux, hkf, hga, Bool.false_eq_true, if_false]
      exact ih c
    | some o =>
      have hkt : hasKey a j = true := by rw [hk, hga]; rfl
      simp only [tallyFullAux, tallyAux, hkt, hga, if_true]
      cases hts : tallyStep c o.risk_level with
      | none => rfl
      | some c' => exact ih c'

theorem summaryEntryFull_eq (analyses : List ClauseAnalysis) (juris : String)
    (hj : juris = "us" ∨ juris = "indian") :
    summaryEntryFull analyses juris = summaryEntry analyses juris := by
  unfold summaryEntryFull summaryEntry tallyRisksFull tallyRisks
  rw [tallyFullAux_eq juris hj]

theorem summaryAuxFull_eq (analyses : List ClauseAnalysis) :
    ∀ js : List String, (∀ j ∈ js, j = "us" ∨ j = "indian") →
      summaryAuxFull analyses js = summaryAux analyses js := by
  intro js
  induction js with
  | nil => intro _; rfl
  | cons juris rest ih =>
    intro h
    have hj := h juris (List.mem_cons_self juris rest)
    have hfun : (fun a => hasKey a juris) = (fun a => hasJuris a juris) :=
      funext fun a => hasKey_eq_hasJuris a juris hj
    simp only [summaryAuxFull, summaryAux, hfun,
      summaryEntryFull_eq analyses juris hj,
      ih fun x hx => h x (List.mem_cons_of_mem juris hx)]

/-- On the registered selectors, the full dict model of
`_generate_summary` agrees with the restricted one: the metadata keys
"clause_id" and "text" never collide with "us"/"indian". -/
theorem generateSummaryFull_eq (analyses : List ClauseAnalysis) (jd : String)
    (hjd : jd = "us" ∨ jd = "indian" ∨ jd = "both") :
    generateSummaryFull analyses jd = generateSummary analyses jd := by
  unfold generateSummaryFull generateSummary
  rcases hjd with rfl | rfl | rfl
  · exact summaryAuxFull_eq analyses ["us"]
      (by intro x hx; simp only [List.mem_singleton] at hx; exact Or.inl hx)
  · exact summaryAuxFull_eq analyses ["indian"]
      (by intro x hx; simp only [List.mem_singleton] at hx; exact Or.inr hx)
  · exact summaryAuxFull_eq analyses ["us", "indian"]
      (by intro x hx
          simp only [List.mem_cons, List.not_mem_nil, or_false] at hx
          exact hx)

/-- C4, amended: `analyze_contract` never reports an
`UnknownJurisdiction` error.  For every selector that is neither a
registered jurisdiction ("us", "indian", "both") nor one of the
metadata dict keys ("clause_id", "text"), the call returns a normal
result -- no exception escapes, every clause analysis carries no
per-jurisdiction classification, and the summary is empty.  For the
selectors "clause_id" and "text" on any contract with at least one
extracted clause, the call does fail -- but with the TypeError raised
by `_generate_summary` subscripting the metadata value, not with an
`UnknownJurisdiction` error. -/
theorem C4_unknown_selector (usC indC : Cap) (text : List Char) (j : String) :
    (j ∉ (["us", "indian", "both", "clause_id", "text"] : List String) →
      analyzeContractChecked usC indC text j = some (analyzeContract usC indC text j) ∧
      ((analyzeContract usC indC text j).clause_analyses.all
         fun a => a.us.isNone && a.indian.isNone) = true ∧
      (analyzeContract usC indC text j).summary = some []) ∧
    ((j = "clause_id" ∨ j = "text") → extractClauses text ≠ [] →
      analyzeContractChecked usC indC text j = none) := by
  constructor
  · intro hj
    simp only [List.mem_cons, List.not_mem_nil, or_false, not_or] at hj
    obtain ⟨h1, h2, h3, h4, h5⟩ := hj
    have hnone : ∀ a : ClauseAnalysis, getJuris a j = none := by
      intro a
      unfold getJuris
      rw [if_neg h1, if_neg h2]
    have hkeyF : ∀ a : ClauseAnalysis, hasKey a j = false := by
      intro a
      unfold hasKey
      rw [if_neg h1, if_neg h2]
      simp [h4, h5]
    have hsumF : ∀ L : List ClauseAnalysis, summaryAuxFull L [j] = some [] := by
      intro L
      have hny : (L.any fun a => hasKey a j) = false := by simp [hkeyF]
      rw [summaryAuxFull, hny]
      rfl
    have hsumR : ∀ L : List ClauseAnalysis, summaryAux L [j] = some [] := by
      intro L
      have hny : (L.any fun a => hasJuris a j) = false := by
        simp [hasJuris, hnone]
      rw [summaryAux, hny]
      rfl
    refine ⟨?_, ?_, ?_⟩
    · simp only [analyzeContractChecked, analyzeContract, generateSummaryFull,
        generateSummary, if_neg h3]
      rw [hsumF, hsumR]
    · simp only [analyzeContract, List.all_eq_true]
      intro a ha
      simp only [List.mem_map] at ha
      obtain ⟨ic, _, rfl⟩ := ha
      simp [mkClauseAnalysis, h1, h2, h3]
    · simp only [analyzeContract, generateSummary]
      rw [if_neg h3, hsumR]
  · intro hjm hne
    have hkeyT : ∀ a : ClauseAnalysis, hasKey a j = true := by
      intro a
      rcases hjm with rfl | rfl <;> rfl
    have hnone : ∀ a : ClauseAnalysis, getJuris a j = none := by
      intro a
      rcases hjm with rfl | rfl <;> rfl
    have hjb : j ≠ "both" := by rcases hjm with rfl | rfl <;> decide
    simp only [analyzeContractChecked]
    generalize hA : ((extractClauses text).enum.map
      fun ic => mkClauseAnalysis usC indC j ic.1 ic.2) = A
    have hAlen : A.length = (extractClauses text).length := by
      rw [← hA]
      simp
    have hfail : generateSummaryFull A j = none := by
      unfold generateSummaryFull
      rw [if_neg hjb]
      cases hAc : A with
      | nil =>
        exfalso
        apply hne
        apply List.eq_nil_of_length_eq_zero
        rw [← hAlen, hAc]
        rfl
      | cons a A' =>
        have hny : ((a :: A').any fun x => hasKey x j) = true := by
          simp [hkeyT]
        have hentry : summaryEntryFull (a :: A') j = none := by
          unfold summaryEntryFull tallyRisksFull
          rw [tallyFullAux, if_pos (hkeyT a), hnone a]
        rw [summaryAuxFull, hny, hentry]
        rfl
    rw [hfail]

/-- C4, witness: the amended behavior at the concrete selectors
"french" (normal empty result, no failure) and "text" (the TypeError
path). -/
theorem C4_witness :
    (analyzeContractChecked errCap errCap (List.replicate 60 'x') "french" =
        some (analyzeContract errCap errCap (List.replicate 60 'x') "french") ∧
      ((analyzeContract errCap errCap (List.replicate 60 'x') "french").clause_analyses.all
         fun a => a.us.isNone && a.indian.isNone) = true ∧
      (analyzeContract errCap errCap (List.replicate 60 'x') "french").summary = some []) ∧
    analyzeContractChecked errCap errCap (List.replicate 60 'x') "text" = none :=
  ⟨(C4_unknown_selector errCap errCap (List.replicate 60 'x') "french").1 (by decide),
   (C4_unknown_selector errCap errCap (List.replicate 60 'x') "text").2
     (Or.inr rfl) (by decide)⟩

theorem determineRiskLevel_mem (ct : String) (conf : ℚ) :
    determineRiskLevel ct conf ∈ riskTiers := by
  unfold determineRiskLevel riskTiers
  split_ifs <;> simp

theorem classify_risk_mem (score : Cap) (cts : List String) (text : List Char) :
    (classifyWithModel score cts text).risk_level ∈ riskTiers := by
  cases h : score text with
  | error e => simp [classifyWithModel, h, riskTiers]
  | ok preds =>
    simp only [classifyWithModel, h]
    split_ifs
    · simp [riskTiers]
    · exact determineRiskLevel_mem _ _

theorem tallyStep_isSome (c : RiskCounts) (r : String) (hr : r ∈ riskTiers) :
    (tallyStep c r).isSome := by
  simp only [riskTiers, List.mem_cons, List.not_mem_nil, or_false] at hr
  rcases hr with rfl | rfl | rfl <;> simp [tallyStep]

theorem tallyAux_isSome (j : String) :
    ∀ (analyses : List ClauseAnalysis) (c : RiskCounts),
      (∀ a ∈ analyses, ∀ o, getJuris a j = some o → o.risk_level ∈ riskTiers) →
      (tallyAux j analyses c).isSome := by
  intro analyses
  induction analyses with
  | nil => intro c _; simp [tallyAux]
  | cons a rest ih =>
    intro c hv
    cases hga : getJuris a j with
    | none =>
      simp only [tallyAux, hga]
      exact ih c fun x hx => hv x (List.mem_cons_of_mem a hx)
    | some o =>
      have hmem := hv a (List.mem_cons_self a rest) o hga
      obtain ⟨c', hc'⟩ := Option.isSome_iff_exists.mp (tallyStep_isSome c o.risk_level hmem)
      simp only [tallyAux, hga, hc']
      exact ih c' fun x hx => hv x (List.mem_cons_of_mem a hx)

theorem mkClauseAnalysis_valid (usC indC : Cap) (j : String) (idx : ℕ)
    (clause : List Char) (j' : String) (o : Outcome)
    (hgo : getJuris (mkClauseAnalysis usC indC j idx clause) j' = some o) :
    o.risk_level ∈ riskTiers := by
  unfold getJuris mkClauseAnalysis at hgo
  dsimp only at hgo
  split_ifs at hgo <;>
    · rw [Option.some_inj] at hgo
      rw [← hgo]
      exact classify_risk_mem _ _ _

theorem analyzeContract_valid (usC indC : Cap) (text : List Char) (j j' : String) :
    ∀ a ∈ (analyzeContract usC indC text j).clause_analyses, ∀ o,
      getJuris a j' = some o → o.risk_level ∈ riskTiers := by
  intro a ha o hgo
  simp only [analyzeContract, List.mem_map] at ha
  obtain ⟨ic, _, rfl⟩ := ha
  exact mkClauseAnalysis_valid _ _ _ _ _ _ _ hgo

theorem summaryAux_isSome (analyses : List ClauseAnalysis)
    (hv : ∀ (j' : String), ∀ a ∈ analyses, ∀ o,
      getJuris a j' = some o → o.risk_level ∈ riskTiers) :
    ∀ js : List String, (summaryAux analyses js).isSome := by
  intro js
  induction js with
  | nil => simp [summaryAux]
  | cons juris rest ih =>
    rw [summaryAux]
    split_ifs with hany
    · obtain ⟨c, hc⟩ := Option.isSome_iff_exists.mp
        (tallyAux_isSome juris analyses ⟨0, 0, 0⟩ (hv juris))
      obtain ⟨tail, htail⟩ := Option.isSome_iff_exists.mp ih
      simp [summaryEntry, tallyRisks, hc, htail]
    · exact ih

/-- On the registered selectors, `analyze_contract` under the full
dict model raises no exception and agrees with the restricted model:
its summary loop only ever visits the keys "us" and "indian", where
every guarded access hits a well-formed classification dict. -/
theorem analyzeContractChecked_registered (usC indC : Cap) (text : List Char)
    (jd : String) (hjd : jd = "us" ∨ jd = "indian" ∨ jd = "both") :
    analyzeContractChecked usC indC text jd = some (analyzeContract usC indC text jd) := by
  have hv : ∀ (j' : String), ∀ a ∈ ((extractClauses text).enum.map
      fun ic => mkClauseAnalysis usC indC jd ic.1 ic.2), ∀ o,
      getJuris a j' = some o → o.risk_level ∈ riskTiers := by
    intro j' a ha o hgo
    simp only [List.mem_map] at ha
    obtain ⟨ic, _, rfl⟩ := ha
    exact mkClauseAnalysis_valid _ _ _ _ _ _ _ hgo
  obtain ⟨s, hs⟩ := Option.isSome_iff_exists.mp
    (summaryAux_isSome _ hv (if jd = "both" then ["us", "indian"] else [jd]))
  simp only [analyzeContractChecked, analyzeContract,
    generateSummaryFull_eq _ _ hjd, generateSummary]
  rw [hs]

/-- C10: every classification result -- success or fallback branch --
carries a risk level among exactly "high", "medium", "low"; hence the
tally loops of `_generate_summary` and
`_generate_simple_risk_assessment` over pipeline-produced analyses
never hit a missing `risk_counts` key, for any requested jurisdiction. -/
theorem C10_risk_level_safety :
    (∀ (score : Cap) (cts : List String) (text : List Char),
      (classifyWithModel score cts text).risk_level ∈ riskTiers) ∧
    (∀ (usC indC : Cap) (text : List Char) (j j' : String),
      (tallyRisks (analyzeContract usC indC text j).clause_analyses j').isSome) ∧
    (∀ (usC indC : Cap) (text : List Char) (j : String),
      ((analyzeContract usC indC text j).summary).isSome) := by
  refine ⟨classify_risk_mem, ?_, ?_⟩
  · intro usC indC text j j'
    exact tallyAux_isSome j' _ ⟨0, 0, 0⟩ (analyzeContract_valid usC indC text j j')
  · intro usC indC text j
    have hv : ∀ (j' : String), ∀ a ∈ (analyzeContract usC indC text j).clause_analyses,
        ∀ o, getJuris a j' = some o → o.risk_level ∈ riskTiers :=
      fun j' => analyzeContract_valid usC indC text j j'
    exact summaryAux_isSome _ hv _

/-- C8: swapping the two summaries swaps the two "unique to" label
sets, and membership in `uniqueToFirst` is exactly "observed in the
first histogram and not in the second". -/
theorem C8_comparison_symmetry (A B : SummaryIn) :
    (generateSimpleComparison A B).uniqueToFirst =
        (generateSimpleComparison B A).uniqueToSecond ∧
    (generateSimpleComparison A B).uniqueToSecond =
        (generateSimpleComparison B A).uniqueToFirst ∧
    ∀ x : String, x ∈ (generateSimpleComparison A B).uniqueToFirst ↔
      (x ∈ A.clause_types.map Prod.fst ∧ x ∉ B.clause_types.map Prod.fst) := by
  refine ⟨rfl, rfl, ?_⟩
  intro x
  simp [generateSimpleComparison, labelSet]

/-! ### C9: the reported label distribution -/

theorem le_listMax : ∀ (l : List ℚ), ∀ x ∈ l, x ≤ listMax l := by
  intro l
  induction l with
  | nil => intro x hx; exact absurd hx (List.not_mem_nil x)
  | cons a t ih =>
    intro x hx
    cases t with
    | nil =>
      rcases List.mem_singleton.mp hx with rfl
      exact le_refl x
    | cons b t' =>
      rw [listMax]
      rcases List.mem_cons.mp hx with rfl | hx
      · exact le_max_left _ _
      · exact le_trans (ih x hx) (le_max_right _ _)

theorem argmaxIdx_lt : ∀ (l : List ℚ), l ≠ [] → argmaxIdx l < l.length := by
  intro l
  induction l with
  | nil => intro h; exact absurd rfl h
  | cons a t ih =>
    intro _
    cases t with
    | nil => simp [argmaxIdx]
    | cons b t' =>
      rw [argmaxIdx]
      split_ifs
      · simp
      · have := ih (by simp)
        simp only [List.length_cons] at this ⊢
        omega

theorem getD_argmax : ∀ (l : List ℚ), l ≠ [] → l.getD (argmaxIdx l) 0 = listMax l := by
  intro l
  induction l with
  | nil => intro h; exact absurd rfl h
  | cons a t ih =>
    intro _
    cases t with
    | nil => rfl
    | cons b t' =>
      rw [argmaxIdx, listMax]
      split_ifs with hle
      · rw [List.getD_cons_zero, max_eq_left hle]
      · push_neg at hle
        rw [List.getD_cons_succ, ih (by simp), max_eq_right (le_of_lt hle)]

theorem round3_mono {x y : ℚ} (h : x ≤ y) : round3 x ≤ round3 y := by
  unfold round3
  have hr : round (1000 * x) ≤ round (1000 * y) := by
    rw [round_eq, round_eq]
    exact Int.floor_mono (by linarith)
  have hz : ((round (1000 * x) : ℤ) : ℚ) ≤ ((round (1000 * y) : ℤ) : ℚ) := by
    exact_mod_cast hr
  linarith

theorem round3_err (x : ℚ) : |round3 x - x| ≤ 1/2000 := by
  have h := abs_sub_round (1000 * x)
  unfold round3
  have he : ((round (1000 * x) : ℤ) : ℚ)/1000 - x
      = -((1000 * x - ((round (1000 * x) : ℤ) : ℚ))/1000) := by ring
  rw [he, abs_neg, abs_div, abs_of_pos (by norm_num : (0:ℚ) < 1000)]
  linarith

theorem sum_map_round3_near (l : List ℚ) :
    |(l.map round3).sum - l.sum| ≤ (l.length : ℚ) / 2000 := by
  induction l with
  | nil => simp
  | cons x t ih =>
    simp only [List.map_cons, List.sum_cons, List.length_cons]
    have h1 : |round3 x - x| ≤ 1/2000 := round3_err x
    have he : (round3 x + (t.map round3).sum) - (x + t.sum)
        = (round3 x - x) + ((t.map round3).sum - t.sum) := by ring
    rw [he]
    refine le_trans (abs_add _ _) ?_
    push_cast
    linarith

theorem getD_mem {α : Type} : ∀ (l : List α) (i : ℕ) (d : α),
    i < l.length → l.getD i d ∈ l := by
  intro l
  induction l with
  | nil => intro i d hi; exact absurd hi (by simp)
  | cons a t ih =>
    intro i d hi
    cases i with
    | zero => rw [List.getD_cons_zero]; exact List.mem_cons_self a t
    | succ i =>
      rw [List.getD_cons_succ]
      exact List.mem_cons_of_mem a
        (ih i d (by simp only [List.length_cons] at hi; omega))

theorem getD_map {α β : Type} (f : α → β) :
    ∀ (l : List α) (i : ℕ) (d : α) (d' : β), i < l.length →
      (l.map f).getD i d' = f (l.getD i d) := by
  intro l
  induction l with
  | nil => intro i d d' hi; exact absurd hi (by simp)
  | cons a t ih =>
    intro i d d' hi
    cases i with
    | zero => rw [List.map_cons, List.getD_cons_zero, List.getD_cons_zero]
    | succ i =>
      rw [List.map_cons, List.getD_cons_succ, List.getD_cons_succ]
      exact ih i d d' (by simp only [List.length_cons] at hi; omega)

theorem lookup_zip : ∀ (ks : List String) (vs : List ℚ) (i : ℕ) (d : String) (d' : ℚ),
    ks.Nodup → i < ks.length → i < vs.length →
    (ks.zip vs).lookup (ks.getD i d) = some (vs.getD i d') := by
  intro ks
  induction ks with
  | nil => intro vs i d d' _ hi; exact absurd hi (by simp)
  | cons k ks' ih =>
    intro vs i d d' hnd hi hiv
    cases vs with
    | nil => exact absurd hiv (by simp)
    | cons v vs' =>
      cases i with
      | zero =>
        rw [List.getD_cons_zero, List.zip_cons_cons, List.lookup,
          List.getD_cons_zero]
        simp
      | succ i =>
        rw [List.getD_cons_succ, List.zip_cons_cons, List.lookup,
          List.getD_cons_succ]
        have hkey : ks'.getD i d ∈ ks' :=
          getD_mem ks' i d (by simp only [List.length_cons] at hi; omega)
        have hkne : (ks'.getD i d == k) = false := by
          rw [beq_eq_false_iff_ne]
          intro hEq
          exact (List.nodup_cons.mp hnd).1 (hEq ▸ hkey)
        rw [hkne]
        exact ih vs' i d d' (List.nodup_cons.mp hnd).2
          (by simp only [List.length_cons] at hi; omega)
          (by simp only [List.length_cons] at hiv; omega)

/-- C9: when the injected capability succeeds with a probability vector
over the taxonomy's labels (one probability per label, summing to 1),
the success result reports the full distribution; its values sum to 1
up to the 3-decimal rounding tolerance `n/2000`; the reported
confidence is exactly the distribution's value at the predicted clause
type (both are the same probability rounded to 3 decimals); and that
value is the maximum of the distribution. -/
theorem C9_distribution (score : Cap) (cts : List String) (text : List Char)
    (preds : List ℚ) (hok : score text = Except.ok preds) (hnd : cts.Nodup)
    (hlen : preds.length = cts.length) (hne : preds ≠ [])
    (hsum : preds.sum = 1) :
    (classifyWithModel score cts text).all_scores = some (cts.zip (preds.map round3)) ∧
    (classifyWithModel score cts text).error = none ∧
    |((cts.zip (preds.map round3)).map Prod.snd).sum - 1| ≤ (cts.length : ℚ) / 2000 ∧
    (cts.zip (preds.map round3)).lookup (classifyWithModel score cts text).clause_type =
      some (classifyWithModel score cts text).confidence ∧
    ∀ v ∈ (cts.zip (preds.map round3)).map Prod.snd,
      v ≤ (classifyWithModel score cts text).confidence := by
  have hid := argmaxIdx_lt preds hne
  have hguard : ¬(preds = [] ∨ preds.length < cts.length ∨ cts.length ≤ argmaxIdx preds) := by
    push_neg
    exact ⟨hne, by omega, by omega⟩
  have hsnd : ((cts.zip (preds.map round3)).map Prod.snd) = preds.map round3 :=
    List.map_snd_zip _ _ (by rw [List.length_map]; omega)
  have hcls : classifyWithModel score cts text =
      { clause_type := cts.getD (argmaxIdx preds) ("Unknown"),
        confidence := round3 (preds.getD (argmaxIdx preds) 0),
        risk_level := determineRiskLevel (cts.getD (argmaxIdx preds) ("Unknown"))
          (preds.getD (argmaxIdx preds) 0),
        all_scores := some (cts.zip (preds.map round3)),
        error := none } := by
    unfold classifyWithModel
    rw [hok]
    dsimp only
    rw [if_neg hguard]
  rw [hcls]
  refine ⟨rfl, rfl, ?_, ?_, ?_⟩
  · rw [hsnd]
    have h := sum_map_round3_near preds
    rw [hsum, hlen] at h
    exact h
  · dsimp only
    rw [lookup_zip cts (preds.map round3) (argmaxIdx preds) ("Unknown") 0 hnd
      (by omega) (by rw [List.length_map]; omega)]
    rw [getD_map round3 preds (argmaxIdx preds) 0 0 (by omega)]
  · intro v hv
    rw [hsnd] at hv
    simp only [List.mem_map] at hv
    obtain ⟨p, hp, rfl⟩ := hv
    dsimp only
    apply round3_mono
    rw [getD_argmax preds hne]
    exact le_listMax preds p hp

/-- C9, witness: the concrete two-label taxonomy with distribution
(0.25, 0.75). -/
theorem C9_witness :
    (classifyWithModel score9 ["A", "B"] []).all_scores =
        some ((["A", "B"]).zip (([1/4, 3/4] : List ℚ).map round3)) ∧
    (classifyWithModel score9 ["A", "B"] []).error = none ∧
    |(((["A", "B"]).zip (([1/4, 3/4] : List ℚ).map round3)).map Prod.snd).sum - 1| ≤
      ((["A", "B"] : List String).length : ℚ) / 2000 ∧
    ((["A", "B"]).zip (([1/4, 3/4] : List ℚ).map round3)).lookup
        (classifyWithModel score9 ["A", "B"] []).clause_type =
      some (classifyWithModel score9 ["A", "B"] []).confidence ∧
    ∀ v ∈ ((["A", "B"]).zip (([1/4, 3/4] : List ℚ).map round3)).map Prod.snd,
      v ≤ (classifyWithModel score9 ["A", "B"] []).confidence :=
  C9_distribution score9 ["A", "B"] [] [1/4, 3/4] rfl (by decide) (by decide)
    (by simp) (by norm_num [List.sum_cons, List.sum_nil])

end ILM
